import Mathlib

/-!
Verification of the Living Resume template parser
(`src/wizard/index.ts`, parse-profile section).

Strings are modelled as `List Char` (all inputs of interest are ASCII, so
JavaScript's UTF-16 code-unit indexing coincides with character indexing).
Each definition below is a direct shallow embedding of the corresponding
TypeScript function; all recursions are structural so that concrete
evaluations go through the kernel (`decide` / `rfl`).
-/

abbrev Str := List Char

/-- Coerce a Lean string literal to the `List Char` model. -/
def str (s : String) : Str := s.data

/-- JavaScript whitespace class `\s`, restricted to ASCII plus NBSP
(the only code points our inputs can contain). -/
def isWS (c : Char) : Bool :=
  c == ' ' || c == '\t' || c == '\n' || c == '\r' ||
  c == '\u000B' || c == '\u000C' || c == ' '

/-- JS `String.prototype.trim` / the `replace(/^\s+|\s+$/g, "")` step:
drop leading and trailing whitespace. -/
def trimWS (s : Str) : Str :=
  ((s.dropWhile isWS).reverse.dropWhile isWS).reverse

/-- Aux for JS `indexOf`: first position (counting from `k`) whose suffix
satisfies `p`. -/
def searchIdxAux (p : Str → Bool) : Str → Nat → Option Nat
  | [], _ => none
  | c :: rest, k => if p (c :: rest) then some k else searchIdxAux p rest (k + 1)

/-- JS `content.indexOf(pat)` (as `Option`): index of the first occurrence
of `pat`, `none` when absent.  `indexOf("") = 0` as in JS. -/
def indexOf? (pat s : Str) : Option Nat :=
  if pat = [] then some 0 else searchIdxAux (fun t => pat.isPrefixOf t) s 0

/-- Whether `pat` occurs as a contiguous substring of `s`. -/
def hasSub (pat : Str) : Str → Bool
  | [] => pat.isEmpty
  | c :: t => pat.isPrefixOf (c :: t) || hasSub pat t

/-- JS `s.split(c)` on a single-character separator: chunks between
occurrences of `c`, keeping empty chunks (`"".split` gives `[""]`). -/
def splitOnChar (c : Char) : Str → List Str
  | [] => [[]]
  | x :: rest =>
    if x = c then [] :: splitOnChar c rest
    else
      match splitOnChar c rest with
      | [] => [[x]]
      | y :: ys => (x :: y) :: ys

/-- The comment-stripping pass `replace(/<!--.*?-->/gs, "")` as a two-mode
scanner.  In mode `false` we copy text, entering a comment at `<!--` only
when a closing `-->` exists later (otherwise, as for the regex, nothing
matches in the remainder and it is kept verbatim).  In mode `true` we are
inside a comment and drop characters up to and including the first `-->`. -/
def scGo : Bool → Str → Str
  | _, [] => []
  | true, '-' :: '-' :: '>' :: rest => scGo false rest
  | true, _ :: rest => scGo true rest
  | false, '<' :: '!' :: '-' :: '-' :: rest =>
    if hasSub (str "-->") rest then scGo true rest
    else '<' :: '!' :: '-' :: '-' :: rest
  | false, c :: rest => c :: scGo false rest

/-- `replace(/X+/g, r)` for a character class `p`: every maximal run of
`p`-characters becomes the single character `r`.  The Bool flag records
whether we are inside a run (its first character already emitted `r`). -/
def rrGo (p : Char → Bool) (r : Char) : Bool → Str → Str
  | _, [] => []
  | inRun, c :: rest =>
    if p c then
      (if inRun then rrGo p r true rest else r :: rrGo p r true rest)
    else c :: rrGo p r false rest

/-- `cleanValue` from the source: strip `<!-- ... -->` comment spans, trim,
collapse newline runs to single spaces, trim again. -/
def cleanValue (s : Str) : Str :=
  trimWS (rrGo (fun c => c == '\n') ' ' false (trimWS (scGo false s)))

/-- The regex `/\n###\s/` used as a field boundary: a level-3 subsection
heading begins at this position. -/
def headingAt : Str → Bool
  | '\n' :: '#' :: '#' :: '#' :: c :: _ => isWS c
  | _ => false

/-- The exact delimited marker `**<label>:**` of a field. -/
def fieldMarker (label : Str) : Str := str "**" ++ label ++ str ":**"

/-- The end-of-field computation of `extractField`: starting from the span
length, successively lower it to each boundary that occurs earlier
(next `\n**` field, next `\n- **` bulleted field, next `/\n###\s/`
subsection heading, next `\n---` horizontal rule). -/
def fieldEndCode (s : Str) : Nat :=
  let e0 := s.length
  let e1 := match indexOf? (str "\n**") s with
    | some pos => if pos < e0 then pos else e0
    | none => e0
  let e2 := match indexOf? (str "\n- **") s with
    | some pos => if pos < e1 then pos else e1
    | none => e1
  let e3 := match searchIdxAux headingAt s 0 with
    | some pos => if pos < e2 then pos else e2
    | none => e2
  match indexOf? (str "\n---") s with
  | some pos => if pos < e3 then pos else e3
  | none => e3

/-- `extractField` from the source: text after the first `**label:**`
marker, cut at the earliest boundary, cleaned; `""` when the marker is
absent. -/
def extractField (content : Str) (label : Str) : Str :=
  let marker := fieldMarker label
  match indexOf? marker content with
  | none => []
  | some idx =>
    let afterMarker := content.drop (idx + marker.length)
    cleanValue (afterMarker.take (fieldEndCode afterMarker))

example : extractField (str "**Title:** VP\n\n**Location:** Chicago") (str "Title") = str "VP" := by
  decide

/-- The explicit heading marker `## <name>` of a top-level section. -/
def secMarker (name : Str) : Str := str "## " ++ name

/-- `extractSection` from the source: the span strictly between the
section's heading line and the next `\n## ` heading (or end of document),
trimmed; `""` when the heading is absent.  The heading is located either
as `\n## <name>` mid-document or as `## <name>` at position zero. -/
def extractSection (content : Str) (name : Str) : Str :=
  let marker := secMarker name
  let startIdx : Option Nat :=
    match indexOf? ('\n' :: marker) content with
    | some i => some (i + 1)
    | none => if marker.isPrefixOf content then some 0 else none
  match startIdx with
  | none => []
  | some s =>
    let afterHeading := content.drop (s + marker.length)
    match indexOf? (str "\n") afterHeading with
    | none => []
    | some nl =>
      let sectionContent := afterHeading.drop (nl + 1)
      match indexOf? (str "\n## ") sectionContent with
      | none => trimWS sectionContent
      | some ns => trimWS (sectionContent.take ns)

/-- The line-by-line loop of `extractBulletList`: collect cleaned bullet
values (`- ` / `* ` lines) that are nonempty and not an unterminated
comment; on a blank, `#`-heading or `---` rule line, stop only when at
least one item has been collected; any other line is skipped. -/
def bulletLoop : List Str → List Str → List Str
  | [], items => items
  | line :: rest, items =>
    let t := trimWS line
    if (str "- ").isPrefixOf t || (str "* ").isPrefixOf t then
      let val := cleanValue (t.drop 2)
      if val ≠ [] ∧ ¬ (str "<!--").isPrefixOf val then bulletLoop rest (items ++ [val])
      else bulletLoop rest items
    else if t = [] ∨ (str "#").isPrefixOf t ∨ (str "---").isPrefixOf t then
      (if items ≠ [] then items else bulletLoop rest items)
    else bulletLoop rest items

/-- `extractBulletList` from the source. -/
def extractBulletList (content : Str) (afterMarker : Str) : List Str :=
  match indexOf? afterMarker content with
  | none => []
  | some idx =>
    bulletLoop (splitOnChar '\n' (content.drop (idx + afterMarker.length))) []

/-- A table row object.  JS `Record<string,string>` objects are modelled
as association lists in key-insertion order (the templates in this
repository never produce duplicate normalized header names). -/
abbrev TableRow := List (Str × Str)

/-- `parseTableRow` from the source: split on `|`, discard the first and
last chunk (the outer cells produced by leading/trailing pipes), clean
each remaining cell. -/
def parseTableRow (line : Str) : List Str :=
  ((splitOnChar '|' line).drop 1).dropLast.map cleanValue

/-- Header-row detection: a (trimmed) line starting with `|` (the
redundant `includes("|")` conjunct of the source is kept). -/
def headerLine (l : Str) : Bool := (str "|").isPrefixOf l && hasSub (str "|") l

/-- First index in a list of lines satisfying `p`, counting from `k`. -/
def findIdxAux {α : Type} (p : α → Bool) : List α → Nat → Option Nat
  | [], _ => none
  | x :: rest, k => if p x then some k else findIdxAux p rest (k + 1)

/-- Normalization of a header cell into a field key: lower-case, every
whitespace run replaced by `_`. -/
def normKey (h : Str) : Str := rrGo isWS '_' false (h.map Char.toLower)

/-- The data-row loop of `extractTable`: stop at the first line not
starting with `|`; skip rows whose cells are all empty or unterminated
comments; otherwise zip cells positionally against the headers, missing
cells becoming `""`. -/
def rowLoop (headers : List Str) : List Str → List TableRow
  | [] => []
  | line :: rest =>
    if ¬ (str "|").isPrefixOf line then []
    else
      let cells := parseTableRow line
      if cells.all (fun c => c.isEmpty || (str "<!--").isPrefixOf c) then
        rowLoop headers rest
      else
        (headers.enum.map (fun p => (normKey p.2, cells.getD p.1 []))) :: rowLoop headers rest

/-- `extractTable` from the source: after the marker, split into trimmed
lines, take the first `|`-line as header, skip the next line as the
separator without validating it, then run the data-row loop. -/
def extractTable (content : Str) (afterMarker : Str) : List TableRow :=
  match indexOf? afterMarker content with
  | none => []
  | some idx =>
    let lines := (splitOnChar '\n' (content.drop (idx + afterMarker.length))).map trimWS
    match findIdxAux headerLine lines 0 with
    | none => []
    | some hi =>
      let headers := parseTableRow (lines.getD hi [])
      if headers = [] then []
      else rowLoop headers (lines.drop (hi + 2))


example : extractTable (str "T\n| Stat | Context |\n|---|---|\n| $50M+ | Savings |\n| 300% | ROI |") (str "T") =
    [[(str "stat", str "$50M+"), (str "context", str "Savings")],
     [(str "stat", str "300%"), (str "context", str "ROI")]] := by
  decide

/-- Whether the regex `/^### Role \d+[^\n]*/m` matches at this position
(which the splitter only tests at line starts): the literal `### Role `
followed by at least one digit; the rest of the line is then consumed. -/
def roleHead (s : Str) : Bool :=
  (str "### Role ").isPrefixOf s &&
    (match s.drop 9 with
     | c :: _ => c.isDigit
     | [] => false)

/-- `section.split(/^### Role \d+[^\n]*/m)`: mode 0 scans at a line start,
mode 1 mid-line, mode 2 discards the remainder of a matched heading line
(the newline after it starts the next chunk).  `acc` is the current chunk
in reverse. -/
def roleGo : Nat → Str → Str → List Str
  | _, [], acc => [acc.reverse]
  | 2, c :: rest, acc =>
    if c = '\n' then roleGo 0 rest ('\n' :: acc) else roleGo 2 rest acc
  | 0, c :: rest, acc =>
    if roleHead (c :: rest) then acc.reverse :: roleGo 2 rest []
    else roleGo (if c = '\n' then 0 else 1) rest (c :: acc)
  | _, c :: rest, acc => roleGo (if c = '\n' then 0 else 1) rest (c :: acc)

/-- The chunks produced by splitting on role headings (first chunk is the
text before the first heading). -/
def splitRoleBlocks (s : Str) : List Str := roleGo 0 s []

/-- One entry of the role history (`ExperienceEntry`). -/
structure ExperienceEntry where
  title : Str
  company : Str
  dates : Str
  location : Str
  description : Str
  contributions : List Str
deriving DecidableEq

/-- `extractRoles` from the source: one record per block after a
`### Role N ...` heading, kept when title or company is nonempty. -/
def extractRoles (sec : Str) : List ExperienceEntry :=
  ((splitRoleBlocks sec).drop 1).filterMap (fun block =>
    let title := extractField block (str "Title")
    let company := extractField block (str "Company")
    let dates := extractField block (str "Dates")
    let location := extractField block (str "Location")
    let description := extractField block (str "Description")
    let contributions := extractBulletList block (str "**Key Contributions:**")
    if title ≠ [] ∨ company ≠ [] then
      some ⟨title, company, dates, location, description, contributions.filter (fun c => ¬ c.isEmpty)⟩
    else none)

/-- A what-I-offer item. -/
structure Offer where
  title : Str
  description : Str
deriving DecidableEq

/-- `section.split(/^- \*\*Title:\*\*/m)`: split at line starts on the
12-character literal `- **Title:**`, which is removed; the rest of the
line stays with the following chunk.  The Bool flag is true at a line
start. -/
def offerGo : Bool → Str → Str → List Str
  | _, [], acc => [acc.reverse]
  | true, '-' :: ' ' :: '*' :: '*' :: 'T' :: 'i' :: 't' :: 'l' :: 'e' :: ':' :: '*' :: '*' :: rest, acc =>
    acc.reverse :: offerGo false rest []
  | _, c :: rest, acc => offerGo (c = '\n') rest (c :: acc)

/-- The `\s*(.+)` tail of the description regex: the greedy whitespace run
backtracks just enough for `.` (which excludes `\n`) to match at least one
character; the capture then extends to the end of that line.  `none` when
the remainder is empty or consists only of newlines. -/
def tryDesc (r : Str) : Option Str :=
  let rest := r.dropWhile isWS
  if rest ≠ [] then some (rest.takeWhile (fun c => c ≠ '\n'))
  else
    match (r.takeWhile isWS).reverse.dropWhile (fun c => c = '\n') with
    | [] => none
    | c :: _ => some [c]

/-- `block.match(/\*\*Description:\*\*\s*(.+)/)`: scan for the leftmost
occurrence of `**Description:**` whose tail admits a match, returning the
captured group. -/
def descSearch : Str → Option Str
  | [] => none
  | c :: rest =>
    if (str "**Description:**").isPrefixOf (c :: rest) then
      match tryDesc ((c :: rest).drop 16) with
      | some cap => some cap
      | none => descSearch rest
    else descSearch rest

/-- `extractWhatIOffer` from the source: for each block after a
`- **Title:**` marker, the first line (cleaned) is the title and the
`**Description:**` match is the description; blocks whose title is empty
or an unterminated comment are discarded. -/
def extractWhatIOffer (sec : Str) : List Offer :=
  ((offerGo true sec []).drop 1).filterMap (fun block =>
    let title := cleanValue (block.takeWhile (fun c => c ≠ '\n'))
    let description :=
      match descSearch block with
      | some cap => cleanValue cap
      | none => []
    if title ≠ [] ∧ ¬ (str "<!--").isPrefixOf title then some ⟨title, description⟩
    else none)

-- ─── Data model (the TypeScript interfaces) ─────────────────────────────────

/-- A row of the Financial Impact table. -/
structure FinancialRow where
  accomplishment : Str
  company : Str
  value : Str
deriving DecidableEq

/-- A row of the Headline Stats table. -/
structure StatRow where
  stat : Str
  context : Str
deriving DecidableEq

/-- A row of the Organization Types table. -/
structure OrgTypeRow where
  type : Str
  what_i_bring : Str
deriving DecidableEq

/-- `AboutData`. -/
structure AboutData where
  name : Str
  preferred_name : Str
  title : Str
  location : Str
  core_thesis : Str
  the_moment : Str
  what_i_offer : List Offer
deriving DecidableEq

/-- `NarrativeData`. -/
structure NarrativeData where
  professional_narrative : Str
  philosophy : Str
deriving DecidableEq

/-- `ThesisData`. -/
structure ThesisData where
  core_thesis : Str
  the_moment : Str
  implications : List Str
deriving DecidableEq

/-- `AccomplishmentsData`. -/
structure AccomplishmentsData where
  financial_impact : List FinancialRow
  operational_scale : List Str
  recognition_innovation : List Str
deriving DecidableEq

/-- `TrackRecordData`. -/
structure TrackRecordData where
  headline_stats : List StatRow
  financial_impact : List FinancialRow
deriving DecidableEq

/-- `ExperienceData`. -/
structure ExperienceData where
  experience : List ExperienceEntry
deriving DecidableEq

/-- `SeekingData`. -/
structure SeekingData where
  target_roles : List Str
  reporting_relationship : Str
  organization_types : List OrgTypeRow
  industry : Str
deriving DecidableEq

/-- `CulturalFitData`. -/
structure CulturalFitData where
  thrive_in : List Str
  not_right_for : List Str
deriving DecidableEq

/-- The nested `expertise` object of `SkillsData`. -/
structure Expertise where
  methodologies : List Str
  technical : List Str
  domain : List Str
deriving DecidableEq

/-- `SkillsData`. -/
structure SkillsData where
  what_i_offer : List Offer
  expertise : Expertise
deriving DecidableEq

/-- `ProfileData`: the nine fixed records, in key order. -/
structure ProfileData where
  about : AboutData
  narrative : NarrativeData
  thesis : ThesisData
  accomplishments : AccomplishmentsData
  trackRecord : TrackRecordData
  experience : ExperienceData
  seeking : SeekingData
  culturalFit : CulturalFitData
  skills : SkillsData
deriving DecidableEq

-- ─── parseTemplate ──────────────────────────────────────────────────────────

/-- Property access `row.key` on a table-row object: the value stored
under `key`, `""` when the property is missing (JS `undefined` coerced by
`|| ""` / truthiness at every use site). -/
def getStr (row : TableRow) (key : Str) : Str :=
  ((row.find? (fun p => p.1 = key)).map Prod.snd).getD []

/-- The About-section record. -/
def aboutOf (sec : Str) : AboutData :=
  { name := extractField sec (str "Name")
    preferred_name := extractField sec (str "Preferred Name")
    title := extractField sec (str "Title")
    location := extractField sec (str "Location")
    core_thesis := extractField sec (str "Core Thesis")
    the_moment := extractField sec (str "The Moment")
    what_i_offer := extractWhatIOffer sec }

/-- The Narrative-section record. -/
def narrativeOf (sec : Str) : NarrativeData :=
  { professional_narrative := extractField sec (str "Professional Narrative")
    philosophy := extractField sec (str "Philosophy") }

/-- The Thesis-section record. -/
def thesisOf (sec : Str) : ThesisData :=
  { core_thesis := extractField sec (str "Core Thesis")
    the_moment := extractField sec (str "The Moment")
    implications := extractBulletList sec (str "### Implications") }

/-- The Accomplishments-section record: Financial Impact table rows with a
truthy `accomplishment` cell, plus two bullet lists. -/
def accomplishmentsOf (sec : Str) : AccomplishmentsData :=
  { financial_impact :=
      ((extractTable sec (str "### Financial Impact")).filter
          (fun r => getStr r (str "accomplishment") ≠ [])).map
        (fun r => ⟨getStr r (str "accomplishment"), getStr r (str "company"),
                   getStr r (str "value")⟩)
    operational_scale := extractBulletList sec (str "### Operational Scale")
    recognition_innovation := extractBulletList sec (str "### Recognition & Innovation") }

/-- The Track-Record-section record; its `financial_impact` is copied
verbatim from the Accomplishments record. -/
def trackRecordOf (sec : Str) (fin : List FinancialRow) : TrackRecordData :=
  { headline_stats :=
      ((extractTable sec (str "### Headline Stats")).filter
          (fun r => getStr r (str "stat") ≠ [])).map
        (fun r => ⟨getStr r (str "stat"), getStr r (str "context")⟩)
    financial_impact := fin }

/-- The Experience-section record. -/
def experienceOf (sec : Str) : ExperienceData :=
  { experience := extractRoles sec }

/-- The Seeking-section record. -/
def seekingOf (sec : Str) : SeekingData :=
  { target_roles := extractBulletList sec (str "**Target Roles:**")
    reporting_relationship := extractField sec (str "Reporting Relationship")
    organization_types :=
      ((extractTable sec (str "### Organization Types")).filter
          (fun r => getStr r (str "organization_type") ≠ [])).map
        (fun r => ⟨getStr r (str "organization_type"), getStr r (str "what_i_bring")⟩)
    industry := extractField sec (str "Industry") }

/-- The Cultural-Fit-section record. -/
def culturalFitOf (sec : Str) : CulturalFitData :=
  { thrive_in := extractBulletList sec (str "### I Thrive In")
    not_right_for := extractBulletList sec (str "### Not Right For") }

/-- The Skills-section record; its `what_i_offer` is copied verbatim from
the About record. -/
def skillsOf (sec : Str) (wio : List Offer) : SkillsData :=
  { what_i_offer := wio
    expertise :=
      { methodologies := extractBulletList sec (str "### Methodologies")
        technical := extractBulletList sec (str "### Technical")
        domain := extractBulletList sec (str "### Domain Expertise") } }

/-- `parseTemplate` from the source (its pure part: the file read of the
template path is modelled separately in `runCli`).  Each record is built
from its own extracted section; `trackRecord` additionally receives the
Accomplishments financial-impact rows and `skills` the About what-I-offer
items — the source's deliberate duplication. -/
def parseTemplate (raw : Str) : ProfileData :=
  { about := aboutOf (extractSection raw (str "About"))
    narrative := narrativeOf (extractSection raw (str "Narrative"))
    thesis := thesisOf (extractSection raw (str "Thesis"))
    accomplishments := accomplishmentsOf (extractSection raw (str "Accomplishments"))
    trackRecord :=
      trackRecordOf (extractSection raw (str "Track Record"))
        (accomplishmentsOf (extractSection raw (str "Accomplishments"))).financial_impact
    experience := experienceOf (extractSection raw (str "Experience"))
    seeking := seekingOf (extractSection raw (str "Seeking"))
    culturalFit := culturalFitOf (extractSection raw (str "Cultural Fit"))
    skills :=
      skillsOf (extractSection raw (str "Skills"))
        (aboutOf (extractSection raw (str "About"))).what_i_offer }

-- ─── File output (`writeEndpointFiles`) and emptiness (`isEmptyData`) ───────

/-- `isEmptyData` on a string: empty after trimming. -/
def strEmptyJS (s : Str) : Bool := (trimWS s).isEmpty

/-- `isEmptyData` specialised to `AboutData`: every string value trims to
empty and the array is empty (arrays are tested by length only). -/
def isEmptyAbout (a : AboutData) : Bool :=
  strEmptyJS a.name && strEmptyJS a.preferred_name && strEmptyJS a.title &&
  strEmptyJS a.location && strEmptyJS a.core_thesis && strEmptyJS a.the_moment &&
  a.what_i_offer.isEmpty

/-- `isEmptyData` specialised to `NarrativeData`. -/
def isEmptyNarrative (n : NarrativeData) : Bool :=
  strEmptyJS n.professional_narrative && strEmptyJS n.philosophy

/-- `isEmptyData` specialised to `ThesisData`. -/
def isEmptyThesis (t : ThesisData) : Bool :=
  strEmptyJS t.core_thesis && strEmptyJS t.the_moment && t.implications.isEmpty

/-- `isEmptyData` specialised to `AccomplishmentsData`. -/
def isEmptyAccomplishments (a : AccomplishmentsData) : Bool :=
  a.financial_impact.isEmpty && a.operational_scale.isEmpty &&
  a.recognition_innovation.isEmpty

/-- `isEmptyData` specialised to `TrackRecordData`. -/
def isEmptyTrackRecord (t : TrackRecordData) : Bool :=
  t.headline_stats.isEmpty && t.financial_impact.isEmpty

/-- `isEmptyData` specialised to `ExperienceData`. -/
def isEmptyExperience (e : ExperienceData) : Bool := e.experience.isEmpty

/-- `isEmptyData` specialised to `SeekingData`. -/
def isEmptySeeking (s : SeekingData) : Bool :=
  s.target_roles.isEmpty && strEmptyJS s.reporting_relationship &&
  s.organization_types.isEmpty && strEmptyJS s.industry

/-- `isEmptyData` specialised to `CulturalFitData`. -/
def isEmptyCulturalFit (c : CulturalFitData) : Bool :=
  c.thrive_in.isEmpty && c.not_right_for.isEmpty

/-- `isEmptyData` specialised to `SkillsData` (recursing into the nested
`expertise` object). -/
def isEmptySkills (s : SkillsData) : Bool :=
  s.what_i_offer.isEmpty &&
  (s.expertise.methodologies.isEmpty && s.expertise.technical.isEmpty &&
   s.expertise.domain.isEmpty)

/-- The nine endpoints in `Object.keys(data)` order, each paired with the
emptiness of its record. -/
def endpointEmptiness (d : ProfileData) : List (Str × Bool) :=
  [(str "about", isEmptyAbout d.about),
   (str "narrative", isEmptyNarrative d.narrative),
   (str "thesis", isEmptyThesis d.thesis),
   (str "accomplishments", isEmptyAccomplishments d.accomplishments),
   (str "track-record", isEmptyTrackRecord d.trackRecord),
   (str "experience", isEmptyExperience d.experience),
   (str "seeking", isEmptySeeking d.seeking),
   (str "cultural-fit", isEmptyCulturalFit d.culturalFit),
   (str "skills", isEmptySkills d.skills)]

/-- The nine endpoint names. -/
def endpointKeys : List Str :=
  [str "about", str "narrative", str "thesis", str "accomplishments",
   str "track-record", str "experience", str "seeking", str "cultural-fit",
   str "skills"]

/-- The per-endpoint files written by `writeEndpointFiles`: one
`<endpoint>.json` for every record that is not entirely empty (empty
records are skipped). -/
def endpointFiles (d : ProfileData) : List Str :=
  ((endpointEmptiness d).filter (fun p => ¬ p.2)).map (fun p => p.1 ++ str ".json")

/-- The `endpoints` directory listing of `root.json`: every endpoint whose
record is not entirely empty. -/
def availableEndpoints (d : ProfileData) : List Str :=
  ((endpointEmptiness d).filter (fun p => ¬ p.2)).map Prod.fst

-- ─── CLI entry (`if (!existsSync(...)) exit(1)` / `parse()`) ────────────────

/-- Outcome of the parse/build CLI operation. -/
inductive ParseOutcome where
  /-- The template path does not exist: diagnostic, non-zero exit, no
  output written. -/
  | inputNotFound : ParseOutcome
  /-- The template was read; `files` lists the output files written. -/
  | success (files : List Str) : ParseOutcome
deriving DecidableEq

/-- The files written by an outcome. -/
def outcomeFiles : ParseOutcome → List Str
  | .inputNotFound => []
  | .success fs => fs

/-- The CLI parse operation.  The file system is modelled as a partial map
from paths to contents (`existsSync` = the map is `some`, `readFileSync` =
its value).  On a missing path the CLI prints a diagnostic and exits
non-zero before writing anything; otherwise it parses and writes the
non-empty endpoint files plus the always-written `root.json` directory. -/
def runCli (fs : Str → Option Str) (path : Str) : ParseOutcome :=
  match fs path with
  | none => .inputNotFound
  | some raw => .success (endpointFiles (parseTemplate raw) ++ [str "root.json"])

example : parseTemplate [] =
    { about := ⟨[], [], [], [], [], [], []⟩
      narrative := ⟨[], []⟩
      thesis := ⟨[], [], []⟩
      accomplishments := ⟨[], [], []⟩
      trackRecord := ⟨[], []⟩
      experience := ⟨[]⟩
      seeking := ⟨[], [], [], []⟩
      culturalFit := ⟨[], []⟩
      skills := ⟨[], ⟨[], [], []⟩⟩ } := by decide

-- ─── General lemmas about the string machinery ──────────────────────────────

theorem searchIdxAux_shift (p : Str → Bool) (s : Str) (k : Nat) :
    searchIdxAux p s (k + 1) = (searchIdxAux p s k).map (· + 1) := by
  induction s generalizing k with
  | nil => rfl
  | cons c t ih =>
    simp only [searchIdxAux]
    by_cases h : p (c :: t)
    · simp [h]
    · simp only [h, if_false, Bool.false_eq_true]
      exact ih (k + 1)

theorem searchIdxAux_lt (p : Str → Bool) (s : Str) (k i : Nat)
    (h : searchIdxAux p s k = some i) : i < k + s.length := by
  induction s generalizing k with
  | nil => simp [searchIdxAux] at h
  | cons c t ih =>
    simp only [searchIdxAux] at h
    by_cases hp : p (c :: t)
    · simp only [hp, if_true] at h
      cases h
      simp
    · simp only [hp, if_false, Bool.false_eq_true] at h
      have := ih (k + 1) h
      simp only [List.length_cons]
      omega

theorem isPrefixOf_append_self (pat z : Str) : pat.isPrefixOf (pat ++ z) = true := by
  induction pat with
  | nil => cases z <;> rfl
  | cons a t ih => simp [List.isPrefixOf, ih]

theorem indexOf?_of_pref {pat s : Str} (h : pat.isPrefixOf s = true) :
    indexOf? pat s = some 0 := by
  unfold indexOf?
  split
  · rfl
  · rename_i hp
    cases s with
    | nil =>
      cases pat with
      | nil => exact absurd rfl hp
      | cons a t => simp [List.isPrefixOf] at h
    | cons c t => simp [searchIdxAux, h]

theorem indexOf?_cons {pat : Str} (c : Char) (s : Str) (hp : pat ≠ [])
    (h : pat.isPrefixOf (c :: s) = false) :
    indexOf? pat (c :: s) = (indexOf? pat s).map (· + 1) := by
  unfold indexOf?
  rw [if_neg hp, if_neg hp]
  simp only [searchIdxAux, h, if_false, Bool.false_eq_true]
  exact searchIdxAux_shift (fun t => pat.isPrefixOf t) s 0

theorem indexOf?_lt_length {pat s : Str} {i : Nat} (hp : pat ≠ [])
    (h : indexOf? pat s = some i) : i < s.length := by
  unfold indexOf? at h
  rw [if_neg hp] at h
  simpa using searchIdxAux_lt _ s 0 i h

theorem hasSub_cons (pat : Str) (c : Char) (t : Str) :
    hasSub pat (c :: t) = (pat.isPrefixOf (c :: t) || hasSub pat t) := rfl

theorem hasSub_of_pref {pat s : Str} (hp : pat ≠ []) (h : pat.isPrefixOf s = true) :
    hasSub pat s = true := by
  cases s with
  | nil =>
    cases pat with
    | nil => exact absurd rfl hp
    | cons a t => simp [List.isPrefixOf] at h
  | cons c t => simp [hasSub_cons, h]

theorem hasSub_append_left (pat y x : Str) (h : hasSub pat y = true) :
    hasSub pat (x ++ y) = true := by
  induction x with
  | nil => simpa
  | cons c t ih => simp [hasSub_cons, ih]

theorem splitOnChar_no_sep (c : Char) (xs : Str) (h : xs.all (fun x => x != c) = true) :
    splitOnChar c xs = [xs] := by
  induction xs with
  | nil => rfl
  | cons x t ih =>
    simp only [List.all_cons, Bool.and_eq_true, bne_iff_ne] at h
    simp only [splitOnChar, if_neg h.1]
    rw [ih h.2]

theorem splitOnChar_sep (c : Char) (xs ys : Str) (h : xs.all (fun x => x != c) = true) :
    splitOnChar c (xs ++ c :: ys) = xs :: splitOnChar c ys := by
  induction xs with
  | nil => simp [splitOnChar]
  | cons x t ih =>
    simp only [List.all_cons, Bool.and_eq_true, bne_iff_ne] at h
    simp only [List.cons_append, splitOnChar, if_neg h.1, List.append_eq]
    rw [ih h.2]

/-- The first occurrence of the top-level boundary `\n## ` in
`body ++ "\n## " ++ rest` is exactly at the junction whenever `body`
itself contains no `\n## `: an occurrence straddling the junction is
impossible because the separator starts with `'\n'`, which can match none
of the pattern positions `'#'`, `'#'`, `' '`.  In particular `body` may
freely contain `\n###` subsection headings. -/
theorem sep_idx (body rest : Str) (h : hasSub (str "\n## ") body = false) :
    indexOf? (str "\n## ") (body ++ (str "\n## " ++ rest)) = some body.length := by
  induction body with
  | nil => simpa using indexOf?_of_pref (isPrefixOf_append_self (str "\n## ") rest)
  | cons c t ih =>
    rw [hasSub_cons, Bool.or_eq_false_iff] at h
    have hpref : (str "\n## ").isPrefixOf (c :: (t ++ (str "\n## " ++ rest))) = false := by
      rcases t with _ | ⟨d, _ | ⟨e, _ | ⟨f, t'⟩⟩⟩
      · simp [List.isPrefixOf, str]
      · simp [List.isPrefixOf, str]
      · simp [List.isPrefixOf, str]
      · apply Bool.eq_false_iff.mpr
        intro hT
        simp only [List.cons_append, str, List.isPrefixOf, Bool.and_eq_true,
          beq_iff_eq] at hT
        apply Bool.eq_false_iff.mp h.1
        simp [str, List.isPrefixOf, ← hT.1, ← hT.2.1, ← hT.2.2.1, ← hT.2.2.2.1]
    rw [List.cons_append, indexOf?_cons c _ (by decide) hpref, ih h.2]
    rfl

-- ─── C1: field extraction ───────────────────────────────────────────────────

/-- Spec-side formulation of §4.2/C1's "earliest boundary wins" rule: the
minimum over the positions of the next `\n**` field marker, the next
`\n- **` bulleted field marker, the next `/\n###\s/` subsection heading
and the next `\n---` horizontal rule, each defaulting to end of span. -/
def fieldBoundarySpec (s : Str) : Nat :=
  Nat.min
    (Nat.min ((indexOf? (str "\n**") s).getD s.length)
             ((indexOf? (str "\n- **") s).getD s.length))
    (Nat.min ((searchIdxAux headingAt s 0).getD s.length)
             ((indexOf? (str "\n---") s).getD s.length))

theorem fieldEndCode_eq_spec (s : Str) : fieldEndCode s = fieldBoundarySpec s := by
  unfold fieldEndCode fieldBoundarySpec
  have b1 : ∀ i, indexOf? (str "\n**") s = some i → i < s.length :=
    fun i h => indexOf?_lt_length (by decide) h
  have b2 : ∀ i, indexOf? (str "\n- **") s = some i → i < s.length :=
    fun i h => indexOf?_lt_length (by decide) h
  have b3 : ∀ i, searchIdxAux headingAt s 0 = some i → i < s.length :=
    fun i h => by simpa using searchIdxAux_lt headingAt s 0 i h
  have b4 : ∀ i, indexOf? (str "\n---") s = some i → i < s.length :=
    fun i h => indexOf?_lt_length (by decide) h
  rcases h1 : indexOf? (str "\n**") s with _ | p1 <;>
    rcases h2 : indexOf? (str "\n- **") s with _ | p2 <;>
      rcases h3 : searchIdxAux headingAt s 0 with _ | p3 <;>
        rcases h4 : indexOf? (str "\n---") s with _ | p4 <;>
          simp only [Option.getD_some, Option.getD_none] <;>
            (try have B1 := b1 _ h1) <;> (try have B2 := b2 _ h2) <;>
            (try have B3 := b3 _ h3) <;> (try have B4 := b4 _ h4) <;>
          simp only [Nat.min_def] <;> split_ifs <;> omega

/-- C1: for every text span and field label, `extractField` returns the
cleaned text following the first occurrence of the exact delimited marker
`**<label>:**` up to the earliest of the next field marker (`\n**` or
`\n- **` style), the next level-3 subsection heading, the next horizontal
rule, or end of span (`fieldBoundarySpec`); it returns `""` when the
marker does not occur; and extracting "Title" from
`**Title:** VP\n\n**Location:** Chicago` yields exactly `"VP"`. -/
theorem extractField_boundary_correct :
    (∀ content label, indexOf? (fieldMarker label) content = none →
        extractField content label = []) ∧
    (∀ content label idx, indexOf? (fieldMarker label) content = some idx →
        extractField content label =
          cleanValue ((content.drop (idx + (fieldMarker label).length)).take
            (fieldBoundarySpec (content.drop (idx + (fieldMarker label).length))))) ∧
    extractField (str "**Title:** VP\n\n**Location:** Chicago") (str "Title") = str "VP" := by
  refine ⟨?_, ?_, by decide⟩
  · intro content label h
    simp [extractField, h]
  · intro content label idx h
    simp [extractField, h, fieldEndCode_eq_spec]

/-- Witness for C1 at a concrete input with the marker present. -/
theorem extractField_boundary_correct_witness :
    extractField (str "**A:** x\n---tail") (str "A") =
      cleanValue (((str "**A:** x\n---tail").drop (0 + (fieldMarker (str "A")).length)).take
        (fieldBoundarySpec ((str "**A:** x\n---tail").drop
          (0 + (fieldMarker (str "A")).length)))) :=
  extractField_boundary_correct.2.1 (str "**A:** x\n---tail") (str "A") 0 (by decide)

-- ─── C2: section extraction ─────────────────────────────────────────────────

/-- C2 counterexample: the document `## A\n\nHello\n\n## B` decomposes as
the heading line `## A\n`, then `\nHello\n\n`, then the next top-level
heading `## B`, so the substring strictly between the heading line and the
next same-level heading is `\nHello\n\n` (or `\nHello\n` if the newline
before the next heading is counted as part of that heading's line).  The
code returns `Hello` — the span with its outer whitespace stripped — which
is neither, so `extractSection` does not return the exact strictly-between
substring the claim states. -/
theorem extractSection_claim_counterexample :
    str "## A\n\nHello\n\n## B" = str "## A\n" ++ (str "\nHello\n\n" ++ str "## B") ∧
    extractSection (str "## A\n\nHello\n\n## B") (str "A") = str "Hello" ∧
    str "Hello" ≠ str "\nHello\n\n" ∧
    str "Hello" ≠ str "\nHello\n" := by
  exact ⟨by decide, by decide, by decide, by decide⟩

/-- C2 amended: `extractSection` returns the substring strictly between
the section's heading line and the next top-level `\n## ` heading (or end
of document) with its leading and trailing whitespace stripped, and
returns `""` — never failing — when the heading is absent (first
conjunct).  The position-zero case is the universal second conjunct, whose
body may freely contain level-3 `###` subsection headings — only a
top-level `\n## ` boundary ends the span; the third and fourth conjuncts
exercise exactly that on concrete documents whose sections contain a
`### ` subsection heading, at position zero and mid-document. -/
theorem extractSection_trimmed_between :
    (∀ content name, indexOf? ('\n' :: secMarker name) content = none →
        (secMarker name).isPrefixOf content = false →
        extractSection content name = []) ∧
    (∀ name body rest,
        indexOf? ('\n' :: secMarker name)
            (secMarker name ++ '\n' :: (body ++ (str "\n## " ++ rest))) = none →
        hasSub (str "\n## ") body = false →
        extractSection (secMarker name ++ '\n' :: (body ++ (str "\n## " ++ rest))) name =
          trimWS body) ∧
    extractSection (str "## A\n\n### Sub\nx\n\n## B\ny") (str "A") = str "### Sub\nx" ∧
    extractSection (str "intro\n## About\n### Skills Sub\nHello\n## Other\nX") (str "About") =
      str "### Skills Sub\nHello" := by
  refine ⟨?_, ?_, by decide, by decide⟩
  · intro content name h1 h2
    simp [extractSection, h1, h2]
  · intro name body rest hidx hbody
    have h0 : (secMarker name).isPrefixOf
        (secMarker name ++ '\n' :: (body ++ (str "\n## " ++ rest))) = true :=
      isPrefixOf_append_self _ _
    have hnl : indexOf? (str "\n") ('\n' :: (body ++ (str "\n## " ++ rest))) = some 0 :=
      indexOf?_of_pref (by simp [str, List.isPrefixOf])
    have hsep := sep_idx body rest hbody
    simp only [extractSection, hidx, h0, if_true, Nat.zero_add, List.drop_left, hnl,
      List.drop_succ_cons, List.drop_zero, hsep, List.take_left]

/-- Witness for the amended C2 at a position-zero document whose body
contains a `### ` subsection heading. -/
theorem extractSection_trimmed_between_witness :
    extractSection (secMarker (str "A") ++ '\n' ::
        (str "\n### Sub\nx\n" ++ (str "\n## " ++ str "B\ny"))) (str "A") =
      trimWS (str "\n### Sub\nx\n") :=
  extractSection_trimmed_between.2.1 (str "A") (str "\n### Sub\nx\n") (str "B\ny")
    (by decide) (by decide)

-- ─── C3: bullet-list extraction ─────────────────────────────────────────────

theorem bulletLoop_items (lines : List Str) (acc : List Str)
    (hacc : ∀ v ∈ acc, v ≠ [] ∧ (str "<!--").isPrefixOf v = false) :
    ∀ v ∈ bulletLoop lines acc, v ≠ [] ∧ (str "<!--").isPrefixOf v = false := by
  induction lines generalizing acc with
  | nil => simpa [bulletLoop] using hacc
  | cons line rest ih =>
    intro v hv
    simp only [bulletLoop] at hv
    split at hv
    · split at hv
      · rename_i hval
        refine ih _ ?_ v hv
        intro w hw
        rcases List.mem_append.mp hw with h | h
        · exact hacc w h
        · rcases List.mem_singleton.mp h with rfl
          exact ⟨hval.1, Bool.eq_false_iff.mpr hval.2⟩
      · exact ih _ hacc v hv
    · split at hv
      · split at hv
        · exact hacc v hv
        · exact ih _ hacc v hv
      · exact ih _ hacc v hv

/-- C3 counterexample: with the span `X\n- A\nend\n- B` and marker `X`,
the line `end` is a non-bullet non-blank line occurring after the item
`A` was collected, so by the claim the scan should stop there and `B`
should not be collected; the code nevertheless collects `B`.  (The loop
only breaks on blank/heading/rule lines, and only once an item exists.) -/
theorem extractBulletList_claim_counterexample :
    extractBulletList (str "X\n- A\nend\n- B") (str "X") = [str "A", str "B"] ∧
    extractBulletList (str "X\n\n- A") (str "X") = [str "A"] := by
  exact ⟨by decide, by decide⟩

/-- C3 amended: `extractBulletList` collects the cleaned, nonempty,
non-placeholder bullet lines from the span after the first occurrence of
the marker, in order; non-bullet non-blank non-heading non-rule lines are
skipped and never stop the scan; blank, heading and rule lines are also
skipped until the first item has been collected and stop the scan after
that; `[]` when the marker is absent. -/
theorem extractBulletList_scan_behavior :
    (∀ content marker, indexOf? marker content = none →
        extractBulletList content marker = []) ∧
    (∀ content marker v, v ∈ extractBulletList content marker →
        v ≠ [] ∧ (str "<!--").isPrefixOf v = false) ∧
    extractBulletList (str "M\n\n- A\n- B\n\n- C") (str "M") = [str "A", str "B"] ∧
    extractBulletList (str "M\n- A\ntext\n- B") (str "M") = [str "A", str "B"] := by
  refine ⟨?_, ?_, by decide, by decide⟩
  · intro content marker h
    simp [extractBulletList, h]
  · intro content marker v hv
    unfold extractBulletList at hv
    rcases h : indexOf? marker content with _ | idx
    · rw [h] at hv
      simp at hv
    · rw [h] at hv
      exact bulletLoop_items _ _ (by simp) v hv

/-- Witness for the amended C3 on a concrete extracted item. -/
theorem extractBulletList_scan_behavior_witness :
    str "A" ≠ ([] : Str) ∧ (str "<!--").isPrefixOf (str "A") = false :=
  extractBulletList_scan_behavior.2.1 (str "M\n- A") (str "M") (str "A") (by decide)

-- ─── C4: table extraction ───────────────────────────────────────────────────

/-- C4: `extractTable` takes the first pipe line after the marker as
header, skips the following line unconditionally as the separator (third
conjunct: the result does not depend on that line's content, and it is
never validated), splits pipe rows into cells discarding the outer empty
cells, zips positionally against lower-cased `_`-joined header names with
short rows padded by `""` (second conjunct), stops at the first non-pipe
line (fourth conjunct), and drops exactly the rows whose cells are all
empty or placeholder comments (fifth conjunct).  The first conjunct is the
spec's concrete `| Stat | Context |` example. -/
theorem extractTable_zip_correct :
    (extractTable (str "T\n| Stat | Context |\n|---|---|\n| $50M+ | Savings |\n| 300% | ROI |") (str "T") =
      [[(str "stat", str "$50M+"), (str "context", str "Savings")],
       [(str "stat", str "300%"), (str "context", str "ROI")]]) ∧
    (extractTable (str "T\n| A | B | C |\n| bad separator\n| x | y |") (str "T") =
      [[(str "a", str "x"), (str "b", str "y"), (str "c", [])]]) ∧
    (∀ m h sep body,
        h.all (fun c => c != '\n') = true →
        sep.all (fun c => c != '\n') = true →
        headerLine (trimWS h) = true →
        parseTableRow (trimWS h) ≠ [] →
        extractTable (m ++ (str "\n" ++ (h ++ (str "\n" ++ (sep ++ (str "\n" ++ body)))))) m =
          rowLoop (parseTableRow (trimWS h)) ((splitOnChar '\n' body).map trimWS)) ∧
    (∀ headers line rest, (str "|").isPrefixOf line = false →
        rowLoop headers (line :: rest) = []) ∧
    (∀ headers line rest, (str "|").isPrefixOf line = true →
        (parseTableRow line).all (fun c => c.isEmpty || (str "<!--").isPrefixOf c) = true →
        rowLoop headers (line :: rest) = rowLoop headers rest) := by
  refine ⟨by decide, by decide, ?_, ?_, ?_⟩
  · intro m h sep body hh hsep hhead hne
    have hidx :=
      indexOf?_of_pref
        (isPrefixOf_append_self m (str "\n" ++ (h ++ (str "\n" ++ (sep ++ (str "\n" ++ body))))))
    simp only [extractTable, hidx, Nat.zero_add, List.drop_left]
    have e1 : str "\n" ++ (h ++ (str "\n" ++ (sep ++ (str "\n" ++ body)))) =
        '\n' :: (h ++ ('\n' :: (sep ++ ('\n' :: body)))) := rfl
    rw [e1]
    have e2 : splitOnChar '\n' ('\n' :: (h ++ ('\n' :: (sep ++ ('\n' :: body))))) =
        [] :: (h :: (sep :: splitOnChar '\n' body)) := by
      rw [show splitOnChar '\n' ('\n' :: (h ++ ('\n' :: (sep ++ ('\n' :: body))))) =
            [] :: splitOnChar '\n' (h ++ ('\n' :: (sep ++ ('\n' :: body)))) from rfl,
          splitOnChar_sep '\n' h _ hh, splitOnChar_sep '\n' sep _ hsep]
    rw [e2]
    simp only [List.map_cons]
    have e3 : findIdxAux headerLine
        (trimWS [] :: (trimWS h :: (trimWS sep :: (splitOnChar '\n' body).map trimWS))) 0 =
        some 1 := by
      simp only [findIdxAux]
      rw [if_neg (by decide), if_pos hhead]
    rw [e3]
    simp only [List.getD_cons_succ, List.getD_cons_zero, if_neg hne, List.drop_succ_cons,
      List.drop_zero]
  · intro headers line rest h
    simp [rowLoop, h]
  · intro headers line rest h hall
    simp [rowLoop, h, hall]

/-- Witness for C4's separator-irrelevance conjunct on a concrete table. -/
theorem extractTable_zip_correct_witness :
    extractTable (str "T" ++ (str "\n" ++ (str "| A |" ++ (str "\n" ++
        (str "|-|" ++ (str "\n" ++ str "| x |")))))) (str "T") =
      rowLoop (parseTableRow (trimWS (str "| A |"))) ((splitOnChar '\n' (str "| x |")).map trimWS) :=
  extractTable_zip_correct.2.2.1 (str "T") (str "| A |") (str "|-|") (str "| x |")
    (by decide) (by decide) (by decide) (by decide)

-- ─── C5: experience role extraction ─────────────────────────────────────────

/-- C5: `extractRoles` splits the Experience section on `### Role <n>`
headings (optional trailing annotation text ignored), produces one record
per block in order, keeps a block exactly when Title or Company is
nonempty (first conjunct), and — the heading line being removed whole by
the split — none of its text reaches any field value, as the concrete
two-block example shows (second conjunct). -/
theorem extractRoles_blocks :
    (∀ sec e, e ∈ extractRoles sec → e.title ≠ [] ∨ e.company ≠ []) ∧
    extractRoles (str "### Role 1 (Most Recent)\n**Title:** CTO\n**Company:** Acme\n\n### Role 2\n**Title:** VP\n**Company:** Beta") =
      [⟨str "CTO", str "Acme", [], [], [], []⟩,
       ⟨str "VP", str "Beta", [], [], [], []⟩] := by
  refine ⟨?_, by decide⟩
  intro sec e he
  unfold extractRoles at he
  rcases List.mem_filterMap.mp he with ⟨block, _, hf⟩
  dsimp only at hf
  split at hf
  · rename_i hc
    cases hf
    exact hc
  · cases hf

/-- Witness for C5's keep-condition at a concrete extracted role. -/
theorem extractRoles_blocks_witness :
    str "CTO" ≠ ([] : Str) ∨ str "Acme" ≠ ([] : Str) :=
  extractRoles_blocks.1 (str "### Role 1\n**Title:** CTO\n**Company:** Acme")
    ⟨str "CTO", str "Acme", [], [], [], []⟩ (by decide)

-- ─── C6: omission of empty records ──────────────────────────────────────────

theorem mem_filtered_map {β : Type} (f : Str → β) (keys : List (Str × Bool))
    (k : Str) (b : Bool)
    (hinj : ∀ p ∈ keys, f p.1 = f k → p.1 = k)
    (hmem : (k, b) ∈ keys) (hnodup : (keys.map Prod.fst).Nodup) :
    (f k ∈ (keys.filter (fun p => ¬ p.2)).map (fun p => f p.1)) ↔ b = false := by
  induction keys with
  | nil => cases hmem
  | cons q rest ih =>
    rw [List.map_cons, List.nodup_cons] at hnodup
    have hinj' : ∀ p ∈ rest, f p.1 = f k → p.1 = k :=
      fun p hp => hinj p (List.mem_cons_of_mem q hp)
    rcases List.mem_cons.mp hmem with heq | hmem'
    · subst heq
      by_cases hb : b = true
      · subst hb
        have hfil : (((k, true) :: rest).filter (fun p => ¬ p.2)) =
            rest.filter (fun p => ¬ p.2) := by
          simp [List.filter_cons]
        rw [hfil]
        simp only [Bool.true_eq_false, iff_false]
        intro hmm
        rcases List.mem_map.mp hmm with ⟨p, hp, hfp⟩
        have hp1 : p.1 = k := hinj' p (List.mem_of_mem_filter hp) hfp
        exact hnodup.1 (hp1 ▸ List.mem_map.mpr ⟨p, List.mem_of_mem_filter hp, rfl⟩)
      · have hb' : b = false := by revert hb; cases b <;> simp
        subst hb'
        have hfil : (((k, false) :: rest).filter (fun p => ¬ p.2)) =
            (k, false) :: rest.filter (fun p => ¬ p.2) := by
          simp [List.filter_cons]
        rw [hfil, List.map_cons]
        exact iff_of_true (List.mem_cons_self _ _) rfl
    · have hk : k ∈ rest.map Prod.fst := List.mem_map.mpr ⟨(k, b), hmem', rfl⟩
      have hq1 : q.1 ≠ k := fun h => hnodup.1 (h ▸ hk)
      by_cases hqb : q.2 = true
      · have hfil : ((q :: rest).filter (fun p => ¬ p.2)) = rest.filter (fun p => ¬ p.2) := by
          simp [List.filter_cons, hqb]
        rw [hfil]
        exact ih hinj' hmem' hnodup.2
      · have hqb' : q.2 = false := by revert hqb; cases q.2 <;> simp
        have hfil : ((q :: rest).filter (fun p => ¬ p.2)) =
            q :: rest.filter (fun p => ¬ p.2) := by
          simp [List.filter_cons, hqb']
        rw [hfil, List.map_cons, List.mem_cons]
        constructor
        · rintro (h | h)
          · exact absurd (hinj q (List.mem_cons_self q rest) h.symm) hq1
          · exact (ih hinj' hmem' hnodup.2).mp h
        · intro h
          exact Or.inr ((ih hinj' hmem' hnodup.2).mpr h)

/-- C6: for every parsed profile and every endpoint, the record's file
appears among the written endpoint files, and the endpoint appears in the
`root.json` directory listing, exactly when the record is not entirely
empty after cleaning; an entirely empty record is omitted from both. -/
theorem endpoint_omission_law :
    ∀ d k b, (k, b) ∈ endpointEmptiness d →
      (((k ++ str ".json") ∈ endpointFiles d) ↔ b = false) ∧
      ((k ∈ availableEndpoints d) ↔ b = false) := by
  intro d k b hmem
  have hnodup : ((endpointEmptiness d).map Prod.fst).Nodup := by
    have h : (endpointEmptiness d).map Prod.fst = endpointKeys := rfl
    rw [h]
    decide
  constructor
  · have := mem_filtered_map (fun s => s ++ str ".json") (endpointEmptiness d) k b
      (fun p _ he => (List.append_left_inj (str ".json")).mp he) hmem hnodup
    simpa [endpointFiles] using this
  · have := mem_filtered_map (fun s => s) (endpointEmptiness d) k b
      (fun p _ he => he) hmem hnodup
    simpa [availableEndpoints] using this

/-- Witness for C6: the empty profile's `about` record is empty and so is
omitted from both the written files and the directory listing. -/
theorem endpoint_omission_law_witness :
    (((str "about" ++ str ".json") ∈ endpointFiles (parseTemplate [])) ↔ true = false) ∧
    ((str "about" ∈ availableEndpoints (parseTemplate [])) ↔ true = false) :=
  endpoint_omission_law (parseTemplate []) (str "about") true (by decide)

-- ─── C7: placeholder comments ───────────────────────────────────────────────

theorem isWS_ne_open {c : Char} (h : isWS c = true) : c ≠ '<' := by
  simp only [isWS, Bool.or_eq_true, beq_iff_eq] at h
  rcases h with ((((((h | h) | h) | h) | h) | h) | h) <;> subst h <;> decide

theorem scGo_false_cons (c : Char) (xs : Str) (h : c ≠ '<') :
    scGo false (c :: xs) = c :: scGo false xs := by
  rw [scGo.eq_def]
  split <;> simp_all

theorem scGo_true_cons (c : Char) (xs : Str)
    (h : (str "-->").isPrefixOf (c :: xs) = false) :
    scGo true (c :: xs) = scGo true xs := by
  rw [scGo.eq_def]
  split <;> simp_all [str, List.isPrefixOf]

theorem scGo_ws_pre (pre t : Str) (h : ∀ c ∈ pre, isWS c = true) :
    scGo false (pre ++ t) = pre ++ scGo false t := by
  induction pre with
  | nil => rfl
  | cons c p ih =>
    rw [List.cons_append,
      scGo_false_cons c (p ++ t) (isWS_ne_open (h c (List.mem_cons_self c p))),
      ih (fun x hx => h x (List.mem_cons_of_mem c hx)), List.cons_append]

theorem scGo_in_comment (inner post : Str) (hin : hasSub (str "-->") inner = false) :
    scGo true (inner ++ (str "-->" ++ post)) = scGo false post := by
  induction inner with
  | nil => rfl
  | cons c t ih =>
    rw [hasSub_cons, Bool.or_eq_false_iff] at hin
    have hh : (str "-->").isPrefixOf (c :: (t ++ (str "-->" ++ post))) = false := by
      rcases t with _ | ⟨d, _ | ⟨e, t'⟩⟩
      · simp [str, List.isPrefixOf]
      · simp [str, List.isPrefixOf]
      · apply Bool.eq_false_iff.mpr
        intro hT
        simp only [List.cons_append, str, List.isPrefixOf, Bool.and_eq_true,
          beq_iff_eq] at hT
        apply Bool.eq_false_iff.mp hin.1
        simp [str, List.isPrefixOf, ← hT.1, ← hT.2.1, ← hT.2.2.1]
    rw [List.cons_append, scGo_true_cons _ _ hh, ih hin.2]

theorem trimWS_all_ws (l : Str) (h : ∀ c ∈ l, isWS c = true) : trimWS l = [] := by
  unfold trimWS
  have hd : l.dropWhile isWS = [] := by
    induction l with
    | nil => rfl
    | cons c t ih =>
      rw [List.dropWhile_cons, if_pos (h c (List.mem_cons_self c t))]
      exact ih (fun x hx => h x (List.mem_cons_of_mem c hx))
  rw [hd]
  rfl

/-- C7 counterexample: the raw field text `Real stuff <!-- keep editing -->`
still contains an annotation-comment span, yet the cleaned extracted value
is the nonempty `"Real stuff"`, not the empty string the claim requires:
cleaning strips the comment span but surfaces the surrounding text. -/
theorem extractField_comment_counterexample :
    extractField (str "**Note:** Real stuff <!-- keep editing -->") (str "Note") =
      str "Real stuff" ∧ str "Real stuff" ≠ ([] : Str) := by
  exact ⟨by decide, by decide⟩

/-- C7 amended: annotation-comment spans are stripped from extracted
values, so a raw text consisting of one comment span surrounded only by
whitespace cleans to the empty string and is treated as unset (first
conjunct); a bullet item that is only a comment span is likewise discarded
(second conjunct); text outside the span, however, is surfaced. -/
theorem comment_placeholder_clean :
    (∀ pre inner post, (∀ c ∈ pre, isWS c = true) → (∀ c ∈ post, isWS c = true) →
        hasSub (str "-->") inner = false →
        cleanValue (pre ++ (str "<!--" ++ (inner ++ (str "-->" ++ post)))) = []) ∧
    extractBulletList (str "M\n- <!-- todo -->\n- Real") (str "M") = [str "Real"] := by
  refine ⟨?_, by decide⟩
  intro pre inner post hpre hpost hin
  have hopen : scGo false (str "<!--" ++ (inner ++ (str "-->" ++ post))) =
      scGo true (inner ++ (str "-->" ++ post)) := by
    have hcl : hasSub (str "-->") (inner ++ (str "-->" ++ post)) = true :=
      hasSub_append_left _ _ inner
        (hasSub_of_pref (by decide) (isPrefixOf_append_self (str "-->") post))
    show scGo false ('<' :: '!' :: '-' :: '-' :: (inner ++ (str "-->" ++ post))) = _
    rw [scGo.eq_def]
    simp [hcl]
  have h1 : scGo false (pre ++ (str "<!--" ++ (inner ++ (str "-->" ++ post)))) =
      pre ++ post := by
    rw [scGo_ws_pre pre _ hpre, hopen, scGo_in_comment inner post hin]
    have : scGo false post = post := by
      have h2 := scGo_ws_pre post [] hpost
      simpa [show scGo false [] = ([] : Str) from rfl] using h2
    rw [this]
  have hall : ∀ c ∈ pre ++ post, isWS c = true := by
    intro c hc
    rcases List.mem_append.mp hc with h | h
    · exact hpre c h
    · exact hpost c h
  rw [cleanValue, h1, trimWS_all_ws _ hall]
  rfl

/-- Witness for the amended C7 at a concrete whitespace-wrapped comment. -/
theorem comment_placeholder_clean_witness :
    cleanValue (str " " ++ (str "<!--" ++ (str " fill in " ++ (str "-->" ++ str " ")))) = [] :=
  comment_placeholder_clean.1 (str " ") (str " fill in ") (str " ")
    (by decide) (by decide) (by decide)

-- ─── C8: section independence ───────────────────────────────────────────────

/-- First document of the C8 counterexample pair. -/
def c8raw1 : Str :=
  str "## Accomplishments\n### Financial Impact\n| Accomplishment | Company | Value |\n|---|---|---|\n| Grew revenue | Acme | $1M |\n\n## Track Record\n### Headline Stats\n| Stat | Context |\n|---|---|\n| 300% | ROI |"

/-- Second document of the C8 counterexample pair: identical except for
one table row inside the Accomplishments section. -/
def c8raw2 : Str :=
  str "## Accomplishments\n### Financial Impact\n| Accomplishment | Company | Value |\n|---|---|---|\n| Cut costs | Acme | $2M |\n\n## Track Record\n### Headline Stats\n| Stat | Context |\n|---|---|\n| 300% | ROI |"

/-- C8 counterexample: the two documents differ only in the content of
the Accomplishments section — every other named section extracts
identically, including Track Record — yet the track-record records
differ, because `trackRecord.financial_impact` is copied from the
Accomplishments section.  So mutating one section does change another
section's record. -/
theorem section_independence_counterexample :
    extractSection c8raw1 (str "About") = extractSection c8raw2 (str "About") ∧
    extractSection c8raw1 (str "Narrative") = extractSection c8raw2 (str "Narrative") ∧
    extractSection c8raw1 (str "Thesis") = extractSection c8raw2 (str "Thesis") ∧
    extractSection c8raw1 (str "Track Record") = extractSection c8raw2 (str "Track Record") ∧
    extractSection c8raw1 (str "Experience") = extractSection c8raw2 (str "Experience") ∧
    extractSection c8raw1 (str "Seeking") = extractSection c8raw2 (str "Seeking") ∧
    extractSection c8raw1 (str "Cultural Fit") = extractSection c8raw2 (str "Cultural Fit") ∧
    extractSection c8raw1 (str "Skills") = extractSection c8raw2 (str "Skills") ∧
    (parseTemplate c8raw1).trackRecord ≠ (parseTemplate c8raw2).trackRecord := by
  refine ⟨by decide, by decide, by decide, by decide, by decide, by decide, by decide,
    by decide, by decide⟩

/-- C8 amended: each record depends only on its own extracted section,
except for the two deliberate duplications: the track-record record also
depends on the Accomplishments section (whose financial-impact rows it
copies), and the skills record also depends on the About section (whose
what-I-offer items it copies).  Mutating a section leaves every record
outside this dependency relation unchanged. -/
theorem record_section_dependencies (raw1 raw2 : Str) :
    (extractSection raw1 (str "About") = extractSection raw2 (str "About") →
      (parseTemplate raw1).about = (parseTemplate raw2).about) ∧
    (extractSection raw1 (str "Narrative") = extractSection raw2 (str "Narrative") →
      (parseTemplate raw1).narrative = (parseTemplate raw2).narrative) ∧
    (extractSection raw1 (str "Thesis") = extractSection raw2 (str "Thesis") →
      (parseTemplate raw1).thesis = (parseTemplate raw2).thesis) ∧
    (extractSection raw1 (str "Accomplishments") = extractSection raw2 (str "Accomplishments") →
      (parseTemplate raw1).accomplishments = (parseTemplate raw2).accomplishments) ∧
    (extractSection raw1 (str "Track Record") = extractSection raw2 (str "Track Record") →
      extractSection raw1 (str "Accomplishments") = extractSection raw2 (str "Accomplishments") →
      (parseTemplate raw1).trackRecord = (parseTemplate raw2).trackRecord) ∧
    (extractSection raw1 (str "Experience") = extractSection raw2 (str "Experience") →
      (parseTemplate raw1).experience = (parseTemplate raw2).experience) ∧
    (extractSection raw1 (str "Seeking") = extractSection raw2 (str "Seeking") →
      (parseTemplate raw1).seeking = (parseTemplate raw2).seeking) ∧
    (extractSection raw1 (str "Cultural Fit") = extractSection raw2 (str "Cultural Fit") →
      (parseTemplate raw1).culturalFit = (parseTemplate raw2).culturalFit) ∧
    (extractSection raw1 (str "Skills") = extractSection raw2 (str "Skills") →
      extractSection raw1 (str "About") = extractSection raw2 (str "About") →
      (parseTemplate raw1).skills = (parseTemplate raw2).skills) := by
  refine ⟨fun h => ?_, fun h => ?_, fun h => ?_, fun h => ?_, fun h h' => ?_,
    fun h => ?_, fun h => ?_, fun h => ?_, fun h h' => ?_⟩ <;>
    simp only [parseTemplate] <;> rw [h] <;> try rw [h']

/-- Witness for the amended C8: prepending unrelated text leaves the
About section's extraction, and hence the about record, unchanged. -/
theorem record_section_dependencies_witness :
    (parseTemplate (str "## About\n**Name:** X")).about =
      (parseTemplate (str "intro\n## About\n**Name:** X")).about :=
  (record_section_dependencies (str "## About\n**Name:** X")
    (str "intro\n## About\n**Name:** X")).1 (by decide)

-- ─── C9: missing input is fatal and distinct ────────────────────────────────

/-- C9: invoking the parse CLI on a nonexistent path signals
`inputNotFound` and writes zero output files (first conjunct); a path that
exists never signals `inputNotFound`, whatever its content (second
conjunct) — in particular an existing but empty document parses
successfully, still writing the `root.json` directory (third conjunct). -/
theorem cli_missing_input :
    (∀ fs path, fs path = none →
        runCli fs path = ParseOutcome.inputNotFound ∧
        outcomeFiles (runCli fs path) = []) ∧
    (∀ fs path doc, fs path = some doc → runCli fs path ≠ ParseOutcome.inputNotFound) ∧
    runCli (fun _ => some []) [] = ParseOutcome.success [str "root.json"] := by
  refine ⟨?_, ?_, by decide⟩
  · intro fs path h
    unfold runCli
    rw [h]
    exact ⟨rfl, rfl⟩
  · intro fs path doc h
    unfold runCli
    rw [h]
    exact fun hc => ParseOutcome.noConfusion hc

/-- Witness for C9 at a concrete empty file system. -/
theorem cli_missing_input_witness :
    runCli (fun _ => none) [] = ParseOutcome.inputNotFound ∧
    outcomeFiles (runCli (fun _ => none) []) = [] :=
  cli_missing_input.1 (fun _ => none) [] rfl

-- ─── C10: the parse result always carries the nine records ──────────────────

/-- C10: for every document — including the empty document and documents
without recognized headings — `parseTemplate` yields exactly the nine
fixed records, each with all of its fields present (first conjunct: the
record keys of the result are always the nine endpoint names; second and
third conjuncts: the degenerate documents produce the all-empty nine-field
value, not a smaller record set); the omission of empty records happens
only at file-writing time (fourth and fifth conjuncts: the empty parse
result yields no endpoint files and an empty directory, while the parse
result itself above retains all nine records), and such a document is
still served non-fatally (sixth conjunct). -/
theorem parseTemplate_nine_records :
    (∀ raw, (endpointEmptiness (parseTemplate raw)).map Prod.fst = endpointKeys) ∧
    parseTemplate [] =
      { about := ⟨[], [], [], [], [], [], []⟩
        narrative := ⟨[], []⟩
        thesis := ⟨[], [], []⟩
        accomplishments := ⟨[], [], []⟩
        trackRecord := ⟨[], []⟩
        experience := ⟨[]⟩
        seeking := ⟨[], [], [], []⟩
        culturalFit := ⟨[], []⟩
        skills := ⟨[], ⟨[], [], []⟩⟩ } ∧
    parseTemplate (str "plain text with no headings at all") =
      { about := ⟨[], [], [], [], [], [], []⟩
        narrative := ⟨[], []⟩
        thesis := ⟨[], [], []⟩
        accomplishments := ⟨[], [], []⟩
        trackRecord := ⟨[], []⟩
        experience := ⟨[]⟩
        seeking := ⟨[], [], [], []⟩
        culturalFit := ⟨[], []⟩
        skills := ⟨[], ⟨[], [], []⟩⟩ } ∧
    endpointFiles (parseTemplate []) = [] ∧
    availableEndpoints (parseTemplate []) = [] ∧
    runCli (fun _ => some (str "plain text with no headings at all")) [] =
      ParseOutcome.success [str "root.json"] := by
  exact ⟨fun raw => rfl, by decide, by decide, by decide, by decide, by decide⟩
